import Mathlib

/-!
Verification of the coca-smart-timer core: the duration policy, the
percentage/crop text interpreter, the detection orchestrator and the timer
stage machine, shallowly embedded from the Python source
(src/coca_timer/coca_timer.py and src/coca_timer/main.py).  Python floats
are modelled as rationals, machine text as lists of characters.
-/

namespace Coca

/-- Crop kind; the source uses the strings "coca" and "marijuana". -/
inductive CropType
  | coca
  | marijuana
deriving DecidableEq

/-- Planter kind; the source uses the strings "basic" and "planter_box". -/
inductive PlanterType
  | basic
  | planter_box
deriving DecidableEq

/-- Plant lifecycle stage; the source uses the strings "growing", "ready",
"flowering" and "seeding". -/
inductive Stage
  | growing
  | ready
  | flowering
  | seeding
deriving DecidableEq

/-- Python int() on a rational: truncation toward zero, here the truncating
division of the numerator by the (positive) denominator. -/
def pyInt (q : ℚ) : ℤ := q.num.tdiv q.den

/-- Base time in minutes, from get_timer_duration in main.py: coca is 38.0
basic and 36.0 planter box, marijuana 19.0 basic and 18.0 planter box. -/
def base_time (crop : CropType) (planter : PlanterType) : ℚ :=
  match crop with
  | .coca => if planter = .basic then 38 else 36
  | .marijuana => if planter = .basic then 19 else 18

/-- get_timer_duration from main.py: int(((100 - percentage) / 100 * base_time) * 60). -/
def get_timer_duration (crop : CropType) (planter : PlanterType) (percentage : ℚ) : ℤ :=
  pyInt ((100 - percentage) / 100 * base_time crop planter * 60)

/-- The seconds start_timer in main.py hands to the timer: get_timer_duration
followed by max(1, timer_seconds). -/
def start_timer_seconds (crop : CropType) (planter : PlanterType) (percentage : ℚ) : ℤ :=
  max 1 (get_timer_duration crop planter percentage)

/-- Base-minutes table exactly as the specification words it, for comparison
with the source-derived base_time. -/
def spec_base_minutes : CropType → PlanterType → ℚ
  | .coca, .basic => 38
  | .coca, .planter_box => 36
  | .marijuana, .basic => 19
  | .marijuana, .planter_box => 18

/-- CocaTimer state: the fields of the Python object the claims are about
(the thread handle is modelled separately by ThreadedState). -/
structure TimerState where
  running : Bool
  time_left : ℤ
  original_time : ℤ
  current_stage : Stage
  crop_type : CropType
  planter_type : PlanterType
  notifications_sent : List String
deriving DecidableEq

/-- Ready-stage seconds (the source method on CocaTimer named with a leading
underscore and get_ready_duration): 4 * 60 for marijuana, int(7.5 * 60) = 450
for coca. -/
def ready_duration : CropType → ℤ
  | .marijuana => 4 * 60
  | .coca => 450

/-- Flowering-stage seconds: marijuana 3 * 60 planter box and
int(3.5 * 60) = 210 basic; coca int(7.5 * 60) = 450 planter box and
8 * 60 basic. -/
def flowering_duration (crop : CropType) (planter : PlanterType) : ℤ :=
  match crop with
  | .marijuana => if planter = .planter_box then 3 * 60 else 210
  | .coca => if planter = .planter_box then 450 else 8 * 60

/-- Stage advance (the source method advance_to_next_stage): each transition
sets the next stage's duration, clears notifications_sent and then adds
"stage_transition"; seeding is terminal and gets the sentinel -1. -/
def advance_to_next_stage (s : TimerState) : TimerState :=
  match s.current_stage with
  | .growing =>
    { s with
        current_stage := .ready
        time_left := ready_duration s.crop_type
        notifications_sent := ["stage_transition"] }
  | .ready =>
    { s with
        current_stage := .flowering
        time_left := flowering_duration s.crop_type s.planter_type
        notifications_sent := ["stage_transition"] }
  | .flowering =>
    { s with
        current_stage := .seeding
        time_left := -1
        notifications_sent := ["stage_transition"] }
  | .seeding => s

/-- The once-per-second body of the timer loop: decrement time_left unless in
the seeding stage, then advance when time_left has reached 0.  Nothing
happens when the timer is not running. -/
def tick (s : TimerState) : TimerState :=
  if s.running = true then
    let s1 := if s.current_stage ≠ .seeding then { s with time_left := s.time_left - 1 } else s
    if s1.time_left ≤ 0 then advance_to_next_stage s1 else s1
  else s

/-- n seconds of ticking. -/
def run : ℕ → TimerState → TimerState
  | 0, s => s
  | n + 1, s => run n (tick s)

/-- stop(): clears the running flag (the loop then exits and is joined). -/
def stop (s : TimerState) : TimerState := { s with running := false }

/-- start(initial_time, crop_type, planter_type) with the Python defaults
None, "coca", "basic": stop when already running, install the optional new
duration, set the plant configuration, go to growing and clear
notifications. -/
def start (s : TimerState) (initial_time : Option ℤ) (crop : CropType)
    (planter : PlanterType) : TimerState :=
  let s0 := if s.running = true then stop s else s
  let s1 :=
    match initial_time with
    | some t => { s0 with time_left := t, original_time := t }
    | none => s0
  { s1 with
      crop_type := crop
      planter_type := planter
      current_stage := .growing
      running := true
      notifications_sent := [] }

/-- reset(): stop, restore time_left from original_time, back to growing,
clear notifications, and call start() with no arguments when the timer had
been running. -/
def reset (s : TimerState) : TimerState :=
  let was_running := s.running
  let s1 := stop s
  let s2 :=
    { s1 with
        time_left := s1.original_time
        current_stage := .growing
        notifications_sent := [] }
  if was_running = true then start s2 none .coca .basic else s2

/-- Stage order index: growing 0, ready 1, flowering 2, seeding 3. -/
def stageIdx : Stage → ℕ
  | .growing => 0
  | .ready => 1
  | .flowering => 2
  | .seeding => 3

/-- A CocaTimer instance together with the number of background tick loops
currently alive.  stop() joins the loop, which exits on seeing
running = false, so after stop no loop is alive; start() spawns one. -/
structure ThreadedState where
  timer : TimerState
  active_loops : ℕ
deriving DecidableEq

/-- stop() at the thread level. -/
def stopT (st : ThreadedState) : ThreadedState :=
  { timer := stop st.timer, active_loops := 0 }

/-- start() at the thread level: an already-running timer is stopped (and its
loop joined) first, then one new loop thread is spawned. -/
def startT (st : ThreadedState) (initial_time : Option ℤ) (crop : CropType)
    (planter : PlanterType) : ThreadedState :=
  let st1 := if st.timer.running = true then stopT st else st
  let t1 := st1.timer
  let t2 :=
    match initial_time with
    | some t => { t1 with time_left := t, original_time := t }
    | none => t1
  { timer :=
      { t2 with
          crop_type := crop
          planter_type := planter
          current_stage := .growing
          running := true
          notifications_sent := [] }
    active_loops := st1.active_loops + 1 }

/-- A controlling-thread command. -/
inductive TimerOp
  | opStart (initial_time : Option ℤ) (crop : CropType) (planter : PlanterType)
  | opStop
deriving DecidableEq

/-- Apply one controlling-thread command. -/
def applyOp (st : ThreadedState) : TimerOp → ThreadedState
  | .opStart it c p => startT st it c p
  | .opStop => stopT st

/-- Fresh CocaTimer state as built by the constructor: not running, 38 * 60
seconds, growing, coca in a basic planter, no notifications. -/
def initialTimerState : TimerState :=
  { running := false
    time_left := 38 * 60
    original_time := 38 * 60
    current_stage := .growing
    crop_type := .coca
    planter_type := .basic
    notifications_sent := [] }

/-- Fresh instance: no loop thread exists yet. -/
def initThreaded : ThreadedState := { timer := initialTimerState, active_loops := 0 }

/-- State after a sequence of controlling-thread commands on a fresh instance. -/
def applyOps (ops : List TimerOp) : ThreadedState := ops.foldl applyOp initThreaded

/-- At most one background loop, and none once the running flag is down. -/
def loopInv (st : ThreadedState) : Prop :=
  st.active_loops ≤ 1 ∧ (st.timer.running = false → st.active_loops = 0)

/-- Longest leading run of ASCII digits (the greedy digit part of the regular
expression), and the rest of the text. -/
def takeDigits : List Char → List Char × List Char
  | [] => ([], [])
  | c :: cs =>
    if c.isDigit then
      let r := takeDigits cs
      (c :: r.1, r.2)
    else ([], c :: cs)

/-- One attempt of the pattern digits, an optional dot-digits group, then a
percent sign, at the head of the text: the captured numeral and the rest
after the percent sign.  Greedy digit runs never shrink usefully here, and
when the optional group fails the character after the integer digits is a
dot, not a percent sign, so the alternative without the group fails too. -/
def matchPercentAt (cs : List Char) : Option (List Char × List Char) :=
  match takeDigits cs with
  | ([], _) => none
  | (d :: ds, '.' :: rest) =>
    match takeDigits rest with
    | ([], _) => none
    | (f :: fs, '%' :: rest2) => some (d :: ds ++ '.' :: f :: fs, rest2)
    | (_ :: _, _) => none
  | (d :: ds, '%' :: rest) => some (d :: ds, rest)
  | (_ :: _, _) => none

/-- re.findall scan: try a match at each position, continue after each match,
otherwise move one character forward.  Fuel bounds the recursion; the text
length is always enough. -/
def scanAux : ℕ → List Char → List (List Char)
  | 0, _ => []
  | _ + 1, [] => []
  | n + 1, c :: cs =>
    match matchPercentAt (c :: cs) with
    | some mr => mr.1 :: scanAux n mr.2
    | none => scanAux n cs

/-- All matches of the numeral-percent pattern in the text, left to right. -/
def scanPercents (cs : List Char) : List (List Char) := scanAux cs.length cs

/-- Numeric value of an ASCII digit. -/
def digitVal (c : Char) : ℕ := c.toNat - 48

/-- Decimal value of a digit string. -/
def digitsToNat (ds : List Char) : ℕ := ds.foldl (fun n c => 10 * n + digitVal c) 0

/-- float() of a captured numeral: all digits read as one integer, divided by
ten to the number of digits after the dot. -/
def numeralValue (m : List Char) : ℚ :=
  let ip := m.takeWhile (fun c => c != '.')
  match m.dropWhile (fun c => c != '.') with
  | [] => mkRat (digitsToNat ip) 1
  | _ :: frac => mkRat (digitsToNat (ip ++ frac)) (10 ^ frac.length)

/-- Values of all matches in the text, before range filtering. -/
def percentValues (cs : List Char) : List ℚ := (scanPercents cs).map numeralValue

/-- The seen-set loop at the end of extract_percentages: keep each value the
first time it is met. -/
def dedupeSeen (seen : List ℚ) : List ℚ → List ℚ
  | [] => []
  | p :: ps => if p ∈ seen then dedupeSeen seen ps else p :: dedupeSeen (p :: seen) ps

/-- Keep-first deduplication stated independently of that loop: keep the head
and drop its later duplicates. -/
def dedupFirst : List ℚ → List ℚ
  | [] => []
  | p :: ps => p :: dedupFirst (ps.filter (fun q => q != p))
termination_by l => l.length
decreasing_by
  exact Nat.lt_succ_of_le (List.length_filter_le _ _)

/-- extract_percentages from coca_timer.py: regex matches, parsed as numbers,
kept when in [0, 100], deduplicated preserving first-seen order. -/
def extract_percentages (cs : List Char) : List ℚ :=
  dedupeSeen [] (((scanPercents cs).map numeralValue).filter
    (fun p => decide (0 ≤ p ∧ p ≤ 100)))

/-- Does the needle match at the head of the haystack? -/
def leadMatch : List Char → List Char → Bool
  | [], _ => true
  | _ :: _, [] => false
  | n :: ns, h :: hs => n == h && leadMatch ns hs

/-- Python substring containment: the needle occurs somewhere in the
haystack. -/
def hasSub (needle : List Char) : List Char → Bool
  | [] => leadMatch needle []
  | c :: cs => leadMatch needle (c :: cs) || hasSub needle cs

/-- extract_crop_type from coca_timer.py: lowercase the text, then a
case-insensitive substring match, "coca" before "cannabis". -/
def extract_crop_type (text : List Char) : Option CropType :=
  let lower := text.map Char.toLower
  if hasSub ("coca".toList) lower then some .coca
  else if hasSub ("cannabis".toList) lower then some .marijuana
  else none

/-- min() of a nonempty list (the 0 for the empty case is unreachable under
the callers' non-emptiness checks). -/
def listMin : List ℚ → ℚ
  | [] => 0
  | p :: ps => ps.foldl min p

/-- The config loop of the orchestrator (the CocaTimer method extracting
percentage and crop, leading underscore dropped): each OCR pass's text in
order; the first pass with a non-empty percentage list fixes the percentage
as that list's minimum, the first pass with a crop label fixes the label, and
the loop stops early once both are set. -/
def extractLoop : Option ℚ × Option CropType → List (List Char) → Option ℚ × Option CropType
  | acc, [] => acc
  | acc, t :: ts =>
    let ps := extract_percentages t
    let best := if ps ≠ [] ∧ acc.1 = none then some (listMin ps) else acc.1
    let crop := if acc.2 = none then extract_crop_type t else acc.2
    if best ≠ none ∧ crop ≠ none then (best, crop) else extractLoop (best, crop) ts

/-- The orchestrator over the OCR texts of its configs, starting with no
percentage and no crop. -/
def extract_percentage_and_crop (texts : List (List Char)) : Option ℚ × Option CropType :=
  extractLoop (none, none) texts

/-! ### Stage-machine lemmas -/

/-- While more than one second is left in a finite stage, a tick only
decrements the clock. -/
theorem tick_decrement (s : TimerState) (hr : s.running = true)
    (hst : s.current_stage ≠ .seeding) (h : 1 < s.time_left) :
    tick s = { s with time_left := s.time_left - 1 } := by
  have h2 : ¬ (s.time_left - 1 ≤ 0) := by omega
  simp [tick, hr, hst, h2]

/-- With exactly one second left in a finite stage, a tick advances. -/
theorem tick_at_one (s : TimerState) (hr : s.running = true)
    (hst : s.current_stage ≠ .seeding) (h : s.time_left = 1) :
    tick s = advance_to_next_stage { s with time_left := 0 } := by
  simp [tick, hr, hst, h]

/-- Running one more second is ticking after running. -/
theorem run_succ_last (n : ℕ) (s : TimerState) : run (n + 1) s = tick (run n s) := by
  induction n generalizing s with
  | zero => rfl
  | succ k ih =>
    calc run (k + 1 + 1) s = run (k + 1) (tick s) := rfl
    _ = tick (run k (tick s)) := ih (tick s)
    _ = tick (run (k + 1) s) := rfl

/-- Counting down inside one finite stage: k seconds take k off the clock as
long as the clock stays positive. -/
theorem run_countdown (k : ℕ) : ∀ s : TimerState, s.running = true →
    s.current_stage ≠ .seeding → (k : ℤ) < s.time_left →
    run k s = { s with time_left := s.time_left - k } := by
  induction k with
  | zero =>
    intro s _ _ _
    simp [run]
  | succ k ih =>
    intro s hr hst hk
    have h1 : 1 < s.time_left := by
      have := hk
      push_cast at this
      omega
    have step : run (k + 1) s = run k (tick s) := rfl
    rw [step, tick_decrement s hr hst h1,
      ih { s with time_left := s.time_left - 1 } (by simp [hr]) (by simpa using hst)
        (by simp; push_cast at hk ⊢; omega)]
    congr 1
    push_cast
    ring

/-- A finite stage with a positive clock reaches its transition after exactly
time_left ticks. -/
theorem run_reaches_zero (s : TimerState) (hr : s.running = true)
    (hst : s.current_stage ≠ .seeding) (hpos : 0 < s.time_left) :
    run s.time_left.toNat s = advance_to_next_stage { s with time_left := 0 } := by
  obtain ⟨k, hk⟩ : ∃ k : ℕ, s.time_left.toNat = k + 1 :=
    ⟨s.time_left.toNat - 1, by omega⟩
  have hklt : (k : ℤ) < s.time_left := by omega
  rw [hk, run_succ_last, run_countdown k s hr hst hklt,
    tick_at_one _ (by simp [hr]) (by simpa using hst) (by simp; omega)]

/-- In the seeding stage a tick changes nothing: no decrement happens, and
the stage advance is the identity there. -/
theorem tick_seeding (s : TimerState) (h : s.current_stage = .seeding) : tick s = s := by
  by_cases hr : s.running = true
  · simp only [tick, hr, if_pos]
    simp [h, advance_to_next_stage]
  · simp [tick, hr]

/-- In the seeding stage any number of ticks changes nothing. -/
theorem run_seeding_fix (s : TimerState) (h : s.current_stage = .seeding) (n : ℕ) :
    run n s = s := by
  induction n with
  | zero => rfl
  | succ k ih => rw [run_succ_last, ih, tick_seeding s h]

/-- Every tick keeps the stage or moves it to the immediate successor in the
order growing, ready, flowering, seeding: no skip, no reversal. -/
theorem stage_step (u : TimerState) :
    stageIdx (tick u).current_stage = stageIdx u.current_stage ∨
    stageIdx (tick u).current_stage = stageIdx u.current_stage + 1 := by
  by_cases hru : u.running = true
  · cases hst : u.current_stage <;>
      simp [tick, hru, hst, advance_to_next_stage, stageIdx] <;>
      split_ifs <;> simp [stageIdx]
  · left
    simp [tick, hru]

/-- Both fixed stage durations are positive. -/
theorem ready_duration_pos (c : CropType) : 0 < ready_duration c := by
  cases c <;> decide

/-- Flowering durations are positive for every crop and planter. -/
theorem flowering_duration_pos (c : CropType) (p : PlanterType) :
    0 < flowering_duration c p := by
  cases c <;> cases p <;> decide

/-- Running a growing stage to its transition yields the ready stage with the
crop-dependent ready duration. -/
theorem run_stage_growing (u : TimerState) (hr : u.running = true)
    (hst : u.current_stage = .growing) (hpos : 0 < u.time_left) :
    run u.time_left.toNat u =
      { u with
          current_stage := .ready
          time_left := ready_duration u.crop_type
          notifications_sent := ["stage_transition"] } := by
  rw [run_reaches_zero u hr (by simp [hst]) hpos]
  simp [advance_to_next_stage, hst]

/-- Running a ready stage to its transition yields the flowering stage with
the crop- and planter-dependent flowering duration. -/
theorem run_stage_ready (u : TimerState) (hr : u.running = true)
    (hst : u.current_stage = .ready) (hpos : 0 < u.time_left) :
    run u.time_left.toNat u =
      { u with
          current_stage := .flowering
          time_left := flowering_duration u.crop_type u.planter_type
          notifications_sent := ["stage_transition"] } := by
  rw [run_reaches_zero u hr (by simp [hst]) hpos]
  simp [advance_to_next_stage, hst]

/-- Running a flowering stage to its transition yields the seeding stage with
the infinite sentinel -1. -/
theorem run_stage_flowering (u : TimerState) (hr : u.running = true)
    (hst : u.current_stage = .flowering) (hpos : 0 < u.time_left) :
    run u.time_left.toNat u =
      { u with
          current_stage := .seeding
          time_left := -1
          notifications_sent := ["stage_transition"] } := by
  rw [run_reaches_zero u hr (by simp [hst]) hpos]
  simp [advance_to_next_stage, hst]

/-- C5: a started machine with a positive growing clock visits exactly
growing, ready, flowering, seeding, one stage per transition (each tick keeps
the stage index or raises it by one, so nothing is skipped or reversed), and
each transition installs the fixed table duration: entering ready gives 450
seconds for coca and 240 for marijuana; entering flowering gives 450 for
coca planter box, 480 for coca basic, 180 for marijuana planter box and 210
for marijuana basic. -/
theorem C5_stage_sequence (s : TimerState) (hr : s.running = true)
    (hg : s.current_stage = .growing) (hpos : 0 < s.time_left) :
    (∀ u : TimerState,
      stageIdx (tick u).current_stage = stageIdx u.current_stage ∨
      stageIdx (tick u).current_stage = stageIdx u.current_stage + 1) ∧
    run s.time_left.toNat s =
      { s with
          current_stage := .ready
          time_left := ready_duration s.crop_type
          notifications_sent := ["stage_transition"] } ∧
    run (ready_duration s.crop_type).toNat (run s.time_left.toNat s) =
      { s with
          current_stage := .flowering
          time_left := flowering_duration s.crop_type s.planter_type
          notifications_sent := ["stage_transition"] } ∧
    run (flowering_duration s.crop_type s.planter_type).toNat
        (run (ready_duration s.crop_type).toNat (run s.time_left.toNat s)) =
      { s with
          current_stage := .seeding
          time_left := -1
          notifications_sent := ["stage_transition"] } ∧
    ready_duration .coca = 450 ∧ ready_duration .marijuana = 240 ∧
    flowering_duration .coca .planter_box = 450 ∧
    flowering_duration .coca .basic = 480 ∧
    flowering_duration .marijuana .planter_box = 180 ∧
    flowering_duration .marijuana .basic = 210 := by
  have e1 := run_stage_growing s hr hg hpos
  have e2 : run (ready_duration s.crop_type).toNat (run s.time_left.toNat s) =
      { s with
          current_stage := .flowering
          time_left := flowering_duration s.crop_type s.planter_type
          notifications_sent := ["stage_transition"] } := by
    rw [e1]
    have := run_stage_ready
      { s with
          current_stage := .ready
          time_left := ready_duration s.crop_type
          notifications_sent := ["stage_transition"] }
      (by simp [hr]) (by simp) (by simp [ready_duration_pos])
    simpa using this
  have e3 : run (flowering_duration s.crop_type s.planter_type).toNat
      (run (ready_duration s.crop_type).toNat (run s.time_left.toNat s)) =
      { s with
          current_stage := .seeding
          time_left := -1
          notifications_sent := ["stage_transition"] } := by
    rw [e2]
    have := run_stage_flowering
      { s with
          current_stage := .flowering
          time_left := flowering_duration s.crop_type s.planter_type
          notifications_sent := ["stage_transition"] }
      (by simp [hr]) (by simp) (by simp [flowering_duration_pos])
    simpa using this
  exact ⟨stage_step, e1, e2, e3, rfl, by decide, rfl, by decide, by decide, rfl⟩

/-- Witness for C5: a two-second growing coca/basic timer walks ready at 450,
flowering at 480 and ends seeding at the sentinel. -/
theorem C5_stage_sequence_witness :
    (∀ u : TimerState,
      stageIdx (tick u).current_stage = stageIdx u.current_stage ∨
      stageIdx (tick u).current_stage = stageIdx u.current_stage + 1) ∧
    run 2 (⟨true, 2, 2, .growing, .coca, .basic, []⟩ : TimerState) =
      ⟨true, 450, 2, .ready, .coca, .basic, ["stage_transition"]⟩ ∧
    run 450 (run 2 (⟨true, 2, 2, .growing, .coca, .basic, []⟩ : TimerState)) =
      ⟨true, 480, 2, .flowering, .coca, .basic, ["stage_transition"]⟩ ∧
    run 480 (run 450 (run 2 (⟨true, 2, 2, .growing, .coca, .basic, []⟩ : TimerState))) =
      ⟨true, -1, 2, .seeding, .coca, .basic, ["stage_transition"]⟩ ∧
    ready_duration .coca = 450 ∧ ready_duration .marijuana = 240 ∧
    flowering_duration .coca .planter_box = 450 ∧
    flowering_duration .coca .basic = 480 ∧
    flowering_duration .marijuana .planter_box = 180 ∧
    flowering_duration .marijuana .basic = 210 :=
  C5_stage_sequence ⟨true, 2, 2, .growing, .coca, .basic, []⟩ rfl rfl (by decide)

/-- C6: a running flowering machine whose clock runs out moves to seeding
with time_left set to the infinite sentinel -1, and from then on no tick
ever changes the state again: seeding is terminal and never decremented. -/
theorem C6_seeding_terminal (s : TimerState) (hr : s.running = true)
    (hf : s.current_stage = .flowering) (hpos : 0 < s.time_left) :
    run s.time_left.toNat s =
      { s with
          current_stage := .seeding
          time_left := -1
          notifications_sent := ["stage_transition"] } ∧
    ∀ n : ℕ, run n (run s.time_left.toNat s) = run s.time_left.toNat s := by
  have e := run_stage_flowering s hr hf hpos
  refine ⟨e, fun n => ?_⟩
  rw [e]
  exact run_seeding_fix _ rfl n

/-- Witness for C6: a one-second flowering marijuana timer lands on seeding
at -1 and stays there. -/
theorem C6_seeding_terminal_witness :
    run 1 (⟨true, 1, 9, .flowering, .marijuana, .planter_box, []⟩ : TimerState) =
      ⟨true, -1, 9, .seeding, .marijuana, .planter_box, ["stage_transition"]⟩ ∧
    ∀ n : ℕ,
      run n (run 1 (⟨true, 1, 9, .flowering, .marijuana, .planter_box, []⟩ : TimerState)) =
        run 1 (⟨true, 1, 9, .flowering, .marijuana, .planter_box, []⟩ : TimerState) :=
  C6_seeding_terminal ⟨true, 1, 9, .flowering, .marijuana, .planter_box, []⟩ rfl rfl (by decide)

/-- C8: stop() only clears the running flag, so a second stop() changes
nothing: the whole state, in particular running, time_left, current_stage
and notifications_sent, is the same after two stops as after one. -/
theorem C8_stop_idempotent (s : TimerState) : stop (stop s) = stop s := rfl

/-- One controlling-thread command preserves the loop invariant. -/
theorem loopInv_applyOp (st : ThreadedState) (op : TimerOp) (h : loopInv st) :
    loopInv (applyOp st op) := by
  cases op with
  | opStop =>
    exact ⟨by simp [applyOp, stopT], fun _ => by simp [applyOp, stopT]⟩
  | opStart it c p =>
    by_cases hr : st.timer.running = true
    · refine ⟨by simp [applyOp, startT, hr, stopT], fun hf => ?_⟩
      simp [applyOp, startT, hr, stopT] at hf
    · have h0 : st.active_loops = 0 := h.2 (by simpa using hr)
      refine ⟨by simp [applyOp, startT, hr, h0], fun hf => ?_⟩
      simp [applyOp, startT, hr] at hf

/-- Any command sequence preserves the loop invariant. -/
theorem loopInv_foldl (ops : List TimerOp) : ∀ st : ThreadedState, loopInv st →
    loopInv (ops.foldl applyOp st) := by
  induction ops with
  | nil => exact fun st h => h
  | cons op rest ih => exact fun st h => ih _ (loopInv_applyOp st op h)

/-- C9: starting while already running is the same as stopping (joining the
old loop) and then starting; stopping with no active loop changes nothing;
and along every command sequence from a fresh instance at most one tick loop
is ever alive.  Both operations are total functions, so neither misuse is a
hard failure. -/
theorem C9_at_most_one_loop :
    (∀ (st : ThreadedState) (it : Option ℤ) (c : CropType) (p : PlanterType),
      st.timer.running = true → startT st it c p = startT (stopT st) it c p) ∧
    (∀ st : ThreadedState, st.timer.running = false → st.active_loops = 0 →
      stopT st = st) ∧
    (∀ ops : List TimerOp, (applyOps ops).active_loops ≤ 1) := by
  refine ⟨?_, ?_, ?_⟩
  · intro st it c p h
    cases it <;> simp [startT, stopT, stop, h]
  · intro st h0 h1
    obtain ⟨t, l⟩ := st
    simp only at h0 h1
    subst h1
    obtain ⟨r, tl, ot, cs, ct, pt, ns⟩ := t
    simp only at h0
    subst h0
    rfl
  · intro ops
    exact (loopInv_foldl ops initThreaded ⟨by simp [initThreaded], fun _ => rfl⟩).1

/-- C10: resetting a running timer calls start() with the default arguments,
which overwrites the crop to coca, the planter to basic and the stage to
growing; time_left is restored from original_time, original_time is kept,
and start() with no initial time never touches time_left or
original_time. -/
theorem C10_reset_running (s : TimerState) (hr : s.running = true) :
    reset s =
      start
        { stop s with
            time_left := s.original_time
            current_stage := .growing
            notifications_sent := [] } none .coca .basic ∧
    (reset s).crop_type = .coca ∧
    (reset s).planter_type = .basic ∧
    (reset s).current_stage = .growing ∧
    (reset s).running = true ∧
    (reset s).time_left = s.original_time ∧
    (reset s).original_time = s.original_time ∧
    ∀ (u : TimerState) (c : CropType) (p : PlanterType),
      (start u none c p).time_left = u.time_left ∧
      (start u none c p).original_time = u.original_time := by
  refine ⟨by simp [reset, start, stop, hr], by simp [reset, start, stop, hr],
    by simp [reset, start, stop, hr], by simp [reset, start, stop, hr],
    by simp [reset, start, stop, hr], by simp [reset, start, stop, hr],
    by simp [reset, start, stop, hr], ?_⟩
  intro u c p
  by_cases h : u.running = true <;> simp [start, stop, h]

/-- Witness for C10 at a running marijuana planter-box timer mid-countdown. -/
theorem C10_reset_running_witness :
    reset (⟨true, 5, 77, .flowering, .marijuana, .planter_box, ["x"]⟩ : TimerState) =
      start (⟨false, 77, 77, .growing, .marijuana, .planter_box, []⟩ : TimerState)
        none .coca .basic ∧
    (reset (⟨true, 5, 77, .flowering, .marijuana, .planter_box, ["x"]⟩ : TimerState)).crop_type
      = .coca ∧
    (reset (⟨true, 5, 77, .flowering, .marijuana, .planter_box, ["x"]⟩ : TimerState)).planter_type
      = .basic ∧
    (reset (⟨true, 5, 77, .flowering, .marijuana, .planter_box, ["x"]⟩ : TimerState)).current_stage
      = .growing ∧
    (reset (⟨true, 5, 77, .flowering, .marijuana, .planter_box, ["x"]⟩ : TimerState)).running
      = true ∧
    (reset (⟨true, 5, 77, .flowering, .marijuana, .planter_box, ["x"]⟩ : TimerState)).time_left
      = 77 ∧
    (reset (⟨true, 5, 77, .flowering, .marijuana, .planter_box, ["x"]⟩ : TimerState)).original_time
      = 77 ∧
    ∀ (u : TimerState) (c : CropType) (p : PlanterType),
      (start u none c p).time_left = u.time_left ∧
      (start u none c p).original_time = u.original_time :=
  C10_reset_running ⟨true, 5, 77, .flowering, .marijuana, .planter_box, ["x"]⟩ rfl

/-- Truncation toward zero agrees with the floor on nonnegative rationals. -/
theorem pyInt_eq_floor (q : ℚ) (h : 0 ≤ q) : pyInt q = ⌊q⌋ := by
  rw [Rat.floor_def]
  exact Int.tdiv_eq_ediv (Rat.num_nonneg.mpr h) (Int.natCast_nonneg _)

/-- The source base-time table agrees with the specification's table. -/
theorem base_time_eq_spec (c : CropType) (pl : PlanterType) :
    base_time c pl = spec_base_minutes c pl := by
  cases c <;> cases pl <;> rfl

/-- C1: for a percentage between 0 and 100 the duration handed to the timer
is the floor of base_minutes times (100 - p) / 100 times 60 seconds, clamped
below at one second, with base_minutes 38 for coca basic, 36 for coca
planter box, 19 for marijuana basic and 18 for marijuana planter box; in
particular marijuana planter box at 50 percent gives 540 seconds and coca
basic at 0 percent gives 2280 seconds. -/
theorem C1_duration_policy (p : ℚ) (h0 : 0 ≤ p) (h1 : p ≤ 100)
    (c : CropType) (pl : PlanterType) :
    start_timer_seconds c pl p =
      max 1 ⌊spec_base_minutes c pl * (100 - p) / 100 * 60⌋ ∧
    start_timer_seconds .marijuana .planter_box 50 = 540 ∧
    start_timer_seconds .coca .basic 0 = 2280 := by
  have key : ∀ (c : CropType) (pl : PlanterType) (p : ℚ), 0 ≤ p → p ≤ 100 →
      start_timer_seconds c pl p =
        max 1 ⌊spec_base_minutes c pl * (100 - p) / 100 * 60⌋ := by
    intro c pl p _ h1
    have hb : (0 : ℚ) ≤ base_time c pl := by
      rw [base_time_eq_spec]
      cases c <;> cases pl <;> norm_num [spec_base_minutes]
    have h2 : (0 : ℚ) ≤ 100 - p := by linarith
    have harg : (0 : ℚ) ≤ (100 - p) / 100 * base_time c pl * 60 :=
      mul_nonneg (mul_nonneg (div_nonneg h2 (by norm_num)) hb) (by norm_num)
    have harg2 : (100 - p) / 100 * base_time c pl * 60
        = spec_base_minutes c pl * (100 - p) / 100 * 60 := by
      rw [base_time_eq_spec]
      ring
    unfold start_timer_seconds get_timer_duration
    rw [pyInt_eq_floor _ harg, harg2]
  refine ⟨key c pl p h0 h1, ?_, ?_⟩
  · rw [key .marijuana .planter_box 50 (by norm_num) (by norm_num)]
    norm_num [spec_base_minutes]
  · rw [key .coca .basic 0 (by norm_num) (by norm_num)]
    norm_num [spec_base_minutes]

/-- Witness for C1 at 50 percent, coca in a basic planter. -/
theorem C1_duration_policy_witness :
    start_timer_seconds .coca .basic 50 =
      max 1 ⌊spec_base_minutes .coca .basic * (100 - 50) / 100 * 60⌋ ∧
    start_timer_seconds .marijuana .planter_box 50 = 540 ∧
    start_timer_seconds .coca .basic 0 = 2280 :=
  C1_duration_policy 50 (by norm_num) (by norm_num) .coca .basic

/-! ### Text-interpreter lemmas -/

/-- takeDigits splits the text into the digit run and the rest. -/
theorem takeDigits_append (cs : List Char) :
    (takeDigits cs).1 ++ (takeDigits cs).2 = cs := by
  induction cs with
  | nil => rfl
  | cons c tl ih =>
    by_cases h : c.isDigit
    · simp [takeDigits, h, ih]
    · simp [takeDigits, h]

/-- A successful match decomposes the text into the captured numeral, the
percent sign and the rest. -/
theorem matchPercentAt_eq {cs m r : List Char}
    (h : matchPercentAt cs = some (m, r)) : cs = m ++ '%' :: r := by
  unfold matchPercentAt at h
  split at h
  · exact absurd h (by simp)
  · next d ds rest heq =>
    split at h
    · exact absurd h (by simp)
    · next f fs rest2 heq2 =>
      simp only [Option.some.injEq, Prod.mk.injEq] at h
      obtain ⟨hm, hr⟩ := h
      have e1 := takeDigits_append cs
      rw [heq] at e1
      have e2 := takeDigits_append rest
      rw [heq2] at e2
      subst hm hr
      rw [← e1, ← e2]
      simp
    · exact absurd h (by simp)
  · next d ds rest heq =>
    simp only [Option.some.injEq, Prod.mk.injEq] at h
    obtain ⟨hm, hr⟩ := h
    have e1 := takeDigits_append cs
    rw [heq] at e1
    subst hm hr
    exact e1.symm
  · exact absurd h (by simp)

/-- A match consumes at least the percent sign, so the rest is shorter. -/
theorem matchPercentAt_length {cs m r : List Char}
    (h : matchPercentAt cs = some (m, r)) : r.length + 1 ≤ cs.length := by
  have := congrArg List.length (matchPercentAt_eq h)
  simp [List.length_append] at this
  omega

/-- One unit of fuel beyond the text length changes nothing. -/
theorem scanAux_succ : ∀ (n : ℕ) (cs : List Char), cs.length ≤ n →
    scanAux (n + 1) cs = scanAux n cs := by
  intro n
  induction n with
  | zero =>
    intro cs h
    have : cs = [] := by
      cases cs with
      | nil => rfl
      | cons a tl => simp at h
    subst this
    rfl
  | succ k ih =>
    intro cs h
    cases cs with
    | nil => rfl
    | cons c tl =>
      cases hm : matchPercentAt (c :: tl) with
      | some mr =>
        obtain ⟨m, r⟩ := mr
        have hr : r.length ≤ k := by
          have hl := matchPercentAt_length hm
          simp [List.length_cons] at h hl
          omega
        simp [scanAux, hm]
        exact ih r hr
      | none =>
        have htl : tl.length ≤ k := by simp at h; omega
        simp [scanAux, hm]
        exact ih tl htl

/-- With at least the text length as fuel, scanAux is the scan. -/
theorem scanAux_of_le : ∀ (n : ℕ) (cs : List Char), cs.length ≤ n →
    scanAux n cs = scanPercents cs := by
  intro n
  induction n with
  | zero =>
    intro cs h
    have : cs = [] := by
      cases cs with
      | nil => rfl
      | cons a tl => simp at h
    subst this
    rfl
  | succ k ih =>
    intro cs h
    rcases Nat.lt_or_ge k cs.length with hlt | hge
    · have hlen : cs.length = k + 1 := by omega
      show scanAux (k + 1) cs = scanAux cs.length cs
      rw [hlen]
    · rw [scanAux_succ k cs hge, ih cs hge]

/-- The scan at a successful match position: record the numeral, continue
after the percent sign. -/
theorem scanPercents_match {cs m r : List Char}
    (h : matchPercentAt cs = some (m, r)) :
    scanPercents cs = m :: scanPercents r := by
  have hlen := matchPercentAt_length h
  cases hcs : cs with
  | nil =>
    subst hcs
    simp [matchPercentAt, takeDigits] at h
  | cons c tl =>
    subst hcs
    show scanAux (tl.length + 1) (c :: tl) = m :: scanPercents r
    simp [scanAux, h]
    exact scanAux_of_le tl.length r (by simp at hlen; omega)

/-- The scan at a failed match position moves one character forward. -/
theorem scanPercents_nomatch {c : Char} {cs : List Char}
    (h : matchPercentAt (c :: cs) = none) :
    scanPercents (c :: cs) = scanPercents cs := by
  show scanAux (cs.length + 1) (c :: cs) = scanPercents cs
  simp [scanAux, h]
  rfl

/-- Soundness of the scan: every recorded numeral occurs in the text
immediately followed by a percent sign. -/
theorem scanPercents_infix : ∀ (n : ℕ) (cs : List Char), cs.length ≤ n →
    ∀ m ∈ scanPercents cs, ∃ u v : List Char, u ++ (m ++ ['%']) ++ v = cs := by
  intro n
  induction n with
  | zero =>
    intro cs h m hm
    have : cs = [] := by
      cases cs with
      | nil => rfl
      | cons a tl => simp at h
    subst this
    simp [scanPercents, scanAux] at hm
  | succ k ih =>
    intro cs h m hm
    cases hcs : cs with
    | nil =>
      subst hcs
      simp [scanPercents, scanAux] at hm
    | cons c tl =>
      subst hcs
      cases hmt : matchPercentAt (c :: tl) with
      | some mr =>
        obtain ⟨m0, r⟩ := mr
        rw [scanPercents_match hmt] at hm
        have hdec := matchPercentAt_eq hmt
        rcases List.mem_cons.mp hm with rfl | hm2
        · exact ⟨[], r, by rw [hdec]; simp⟩
        · have hr : r.length ≤ k := by
            have hl := matchPercentAt_length hmt
            simp [List.length_cons] at h hl
            omega
          obtain ⟨u, v, huv⟩ := ih r hr m hm2
          exact ⟨(m0 ++ ['%']) ++ u, v, by rw [hdec, ← huv]; simp⟩
      | none =>
        rw [scanPercents_nomatch hmt] at hm
        have htl : tl.length ≤ k := by simp at h; omega
        obtain ⟨u, v, huv⟩ := ih tl htl m hm
        exact ⟨c :: u, v, by rw [← huv]; simp⟩

/-- Membership in the seen-set loop: kept exactly when present and not yet
seen. -/
theorem mem_dedupeSeen : ∀ (l seen : List ℚ) (q : ℚ),
    q ∈ dedupeSeen seen l ↔ q ∈ l ∧ q ∉ seen := by
  intro l
  induction l with
  | nil => simp [dedupeSeen]
  | cons p ps ih =>
    intro seen q
    by_cases hp : p ∈ seen
    · have hqp : q = p → q ∈ seen := fun h => h ▸ hp
      simp only [dedupeSeen, if_pos hp, ih, List.mem_cons]
      constructor
      · rintro ⟨h1, h2⟩
        exact ⟨Or.inr h1, h2⟩
      · rintro ⟨h1 | h1, h2⟩
        · exact absurd (hqp h1) h2
        · exact ⟨h1, h2⟩
    · simp only [dedupeSeen, if_neg hp, List.mem_cons, ih, List.mem_cons]
      by_cases hq : q = p
      · subst hq
        simp [hp]
      · simp [hq]

/-- The seen-set loop never keeps a value twice. -/
theorem nodup_dedupeSeen : ∀ (l seen : List ℚ), (dedupeSeen seen l).Nodup := by
  intro l
  induction l with
  | nil => intro seen; simp [dedupeSeen]
  | cons p ps ih =>
    intro seen
    by_cases hp : p ∈ seen
    · simpa [dedupeSeen, hp] using ih seen
    · simp only [dedupeSeen, if_neg hp, List.nodup_cons]
      refine ⟨fun hmem => ?_, ih (p :: seen)⟩
      rw [mem_dedupeSeen] at hmem
      exact hmem.2 (List.mem_cons_self p seen)

/-- The seen-set loop is the keep-first deduplication of what is not yet
seen. -/
theorem dedupeSeen_eq_dedupFirst : ∀ (l seen : List ℚ),
    dedupeSeen seen l = dedupFirst (l.filter (fun q => decide (q ∉ seen))) := by
  intro l
  induction l with
  | nil => intro seen; simp [dedupeSeen, dedupFirst]
  | cons p ps ih =>
    intro seen
    by_cases hp : p ∈ seen
    · simp only [dedupeSeen, if_pos hp, List.filter_cons, decide_eq_true_eq]
      rw [if_neg (by simp [hp])]
      exact ih seen
    · simp only [dedupeSeen, if_neg hp, List.filter_cons]
      rw [if_pos (by simp [hp])]
      rw [dedupFirst, ih (p :: seen), List.filter_filter]
      congr 1
      have hfe : List.filter (fun q => decide (q ∉ p :: seen)) ps
          = List.filter (fun a => a != p && decide (a ∉ seen)) ps := by
        apply List.filter_congr
        intro a _
        by_cases h1 : a = p <;> by_cases h2 : a ∈ seen <;>
          simp [h1, h2, List.mem_cons]
      rw [hfe]

/-- leadMatch decides whether the needle starts the haystack. -/
theorem leadMatch_iff : ∀ n h : List Char, leadMatch n h = true ↔ ∃ v, n ++ v = h := by
  intro n
  induction n with
  | nil =>
    intro h
    simp [leadMatch]
  | cons a as ih =>
    intro h
    cases h with
    | nil => simp [leadMatch]
    | cons b bs =>
      simp only [leadMatch, Bool.and_eq_true, beq_iff_eq, ih bs]
      constructor
      · rintro ⟨rfl, v, rfl⟩
        exact ⟨v, by simp⟩
      · rintro ⟨v, hv⟩
        injection hv with h1 h2
        exact ⟨h1, v, h2⟩

/-- hasSub decides substring containment. -/
theorem hasSub_iff : ∀ (hay needle : List Char),
    hasSub needle hay = true ↔ ∃ u v, u ++ needle ++ v = hay := by
  intro hay
  induction hay with
  | nil =>
    intro needle
    constructor
    · intro h
      obtain ⟨v, hv⟩ := (leadMatch_iff needle []).mp h
      exact ⟨[], v, by simpa using hv⟩
    · rintro ⟨u, v, huv⟩
      apply (leadMatch_iff needle []).mpr
      rcases List.append_eq_nil.mp huv with ⟨h1, h2⟩
      rcases List.append_eq_nil.mp h1 with ⟨h3, h4⟩
      exact ⟨[], by simp [h4]⟩
  | cons c cs ih =>
    intro needle
    simp only [hasSub, Bool.or_eq_true, leadMatch_iff, ih]
    constructor
    · rintro (⟨v, hv⟩ | ⟨u, v, huv⟩)
      · exact ⟨[], v, by simpa using hv⟩
      · exact ⟨c :: u, v, by simp [huv]⟩
    · rintro ⟨u, v, huv⟩
      cases u with
      | nil =>
        left
        exact ⟨v, by simpa using huv⟩
      | cons x xs =>
        right
        injection huv with h1 h2
        subst h1
        exact ⟨xs, v, h2⟩

/-- C7: the crop label is a case-insensitive substring decision on the
lowercased text: the coca label exactly when "coca" occurs, the marijuana
label exactly when "cannabis" occurs but "coca" does not (the first match
wins), and none exactly when neither occurs, never an error. -/
theorem C7_crop_label (text : List Char) :
    (extract_crop_type text = some .coca ↔
      ∃ u v, u ++ "coca".toList ++ v = text.map Char.toLower) ∧
    (extract_crop_type text = some .marijuana ↔
      (¬ ∃ u v, u ++ "coca".toList ++ v = text.map Char.toLower) ∧
      ∃ u v, u ++ "cannabis".toList ++ v = text.map Char.toLower) ∧
    (extract_crop_type text = none ↔
      (¬ ∃ u v, u ++ "coca".toList ++ v = text.map Char.toLower) ∧
      ¬ ∃ u v, u ++ "cannabis".toList ++ v = text.map Char.toLower) := by
  by_cases h1 : hasSub ("coca".toList) (text.map Char.toLower) = true
  · have he : extract_crop_type text = some CropType.coca := by
      simp only [extract_crop_type]
      rw [if_pos h1]
    have e1 := (hasSub_iff (text.map Char.toLower) ("coca".toList)).mp h1
    rw [he]
    exact ⟨⟨fun _ => e1, fun _ => rfl⟩,
      ⟨fun hco => by simp at hco, fun hc => absurd e1 hc.1⟩,
      ⟨fun hn => by simp at hn, fun hc => absurd e1 hc.1⟩⟩
  · have ne1 : ¬ ∃ u v, u ++ "coca".toList ++ v = text.map Char.toLower :=
      fun hex => h1 ((hasSub_iff _ _).mpr hex)
    by_cases h2 : hasSub ("cannabis".toList) (text.map Char.toLower) = true
    · have he : extract_crop_type text = some CropType.marijuana := by
        simp only [extract_crop_type]
        rw [if_neg h1, if_pos h2]
      have e2 := (hasSub_iff (text.map Char.toLower) ("cannabis".toList)).mp h2
      rw [he]
      exact ⟨⟨fun hco => by simp at hco, fun hex => absurd hex ne1⟩,
        ⟨fun _ => ⟨ne1, e2⟩, fun _ => rfl⟩,
        ⟨fun hn => by simp at hn, fun hc => absurd e2 hc.2⟩⟩
    · have ne2 : ¬ ∃ u v, u ++ "cannabis".toList ++ v = text.map Char.toLower :=
        fun hex => h2 ((hasSub_iff _ _).mpr hex)
      have he : extract_crop_type text = none := by
        simp only [extract_crop_type]
        rw [if_neg h1, if_neg h2]
      rw [he]
      exact ⟨⟨fun hco => by simp at hco, fun hex => absurd hex ne1⟩,
        ⟨fun hm => by simp at hm, fun hc => absurd hc.2 ne2⟩,
        ⟨fun _ => ⟨ne1, ne2⟩, fun _ => rfl⟩⟩

/-- Folded min never exceeds the start value. -/
theorem foldl_min_le_init : ∀ (l : List ℚ) (a : ℚ), l.foldl min a ≤ a := by
  intro l
  induction l with
  | nil => intro a; exact le_refl a
  | cons x xs ih =>
    intro a
    calc xs.foldl min (min a x) ≤ min a x := ih (min a x)
    _ ≤ a := min_le_left a x

/-- Folded min is the start value or a list element. -/
theorem foldl_min_mem : ∀ (l : List ℚ) (a : ℚ),
    l.foldl min a = a ∨ l.foldl min a ∈ l := by
  intro l
  induction l with
  | nil => intro a; left; rfl
  | cons x xs ih =>
    intro a
    rcases ih (min a x) with h | h
    · rcases le_total a x with hax | hax
      · left
        simp only [List.foldl_cons]
        rw [h, min_eq_left hax]
      · right
        simp only [List.foldl_cons]
        rw [h, min_eq_right hax]
        exact List.mem_cons_self x xs
    · right
      exact List.mem_cons_of_mem x h

/-- Folded min is below every list element. -/
theorem foldl_min_le_mem : ∀ (l : List ℚ) (a x : ℚ), x ∈ l → l.foldl min a ≤ x := by
  intro l
  induction l with
  | nil => intro a x hx; simp at hx
  | cons y ys ih =>
    intro a x hx
    rcases List.mem_cons.mp hx with rfl | hx2
    · calc ys.foldl min (min a x) ≤ min a x := foldl_min_le_init ys (min a x)
      _ ≤ x := min_le_right a x
    · exact ih (min a y) x hx2

/-- min() of a nonempty list is one of its elements. -/
theorem listMin_mem (l : List ℚ) (h : l ≠ []) : listMin l ∈ l := by
  cases l with
  | nil => exact absurd rfl h
  | cons p ps =>
    show ps.foldl min p ∈ p :: ps
    rcases foldl_min_mem ps p with h1 | h1
    · rw [h1]
      exact List.mem_cons_self p ps
    · exact List.mem_cons_of_mem p h1

/-- min() of a list is below each of its elements. -/
theorem listMin_le (l : List ℚ) (x : ℚ) (hx : x ∈ l) : listMin l ≤ x := by
  cases l with
  | nil => simp at hx
  | cons p ps =>
    show ps.foldl min p ≤ x
    rcases List.mem_cons.mp hx with rfl | h2
    · exact foldl_min_le_init ps x
    · exact foldl_min_le_mem ps p x h2

/-- C4: a single OCR pass whose text yields percentages makes the
orchestrator report exactly the minimum of the extracted list (which is a
true minimum: an element below all others); on the text
"COCA 7% remaining 15%" the list is [7, 15], the chosen percentage 7 and the
crop label coca. -/
theorem C4_min_is_chosen (t : List Char) (h : extract_percentages t ≠ []) :
    (extract_percentage_and_crop [t]).1 = some (listMin (extract_percentages t)) ∧
    listMin (extract_percentages t) ∈ extract_percentages t ∧
    (∀ x ∈ extract_percentages t, listMin (extract_percentages t) ≤ x) ∧
    extract_percentages ("COCA 7% remaining 15%".toList) = [7, 15] ∧
    extract_percentage_and_crop ["COCA 7% remaining 15%".toList] =
      (some 7, some .coca) := by
  refine ⟨?_, listMin_mem _ h, fun x hx => listMin_le _ x hx, by decide, by decide⟩
  simp [extract_percentage_and_crop, extractLoop, h]

/-- Witness for C4 at the scenario text. -/
theorem C4_min_is_chosen_witness :
    (extract_percentage_and_crop ["COCA 7% remaining 15%".toList]).1 =
      some (listMin (extract_percentages ("COCA 7% remaining 15%".toList))) ∧
    listMin (extract_percentages ("COCA 7% remaining 15%".toList)) ∈
      extract_percentages ("COCA 7% remaining 15%".toList) ∧
    (∀ x ∈ extract_percentages ("COCA 7% remaining 15%".toList),
      listMin (extract_percentages ("COCA 7% remaining 15%".toList)) ≤ x) ∧
    extract_percentages ("COCA 7% remaining 15%".toList) = [7, 15] ∧
    extract_percentage_and_crop ["COCA 7% remaining 15%".toList] =
      (some 7, some .coca) :=
  C4_min_is_chosen ("COCA 7% remaining 15%".toList) (by decide)

/-- C3: extract_percentages returns, in first-seen order and without
duplicates, exactly the values of the numerals that occur in the text
immediately followed by a percent sign and lie between 0 and 100 inclusive;
every match value outside that range is excluded, and a text without any
match yields the empty list. -/
theorem C3_extract_percentages_spec (cs : List Char) :
    extract_percentages cs =
      dedupFirst ((percentValues cs).filter (fun p => decide (0 ≤ p ∧ p ≤ 100))) ∧
    (extract_percentages cs).Nodup ∧
    (∀ p : ℚ, p ∈ extract_percentages cs ↔
      p ∈ percentValues cs ∧ 0 ≤ p ∧ p ≤ 100) ∧
    (∀ m ∈ scanPercents cs, ∃ u v : List Char, u ++ (m ++ ['%']) ++ v = cs) ∧
    (scanPercents cs = [] → extract_percentages cs = []) := by
  refine ⟨?_, nodup_dedupeSeen _ [], ?_, scanPercents_infix cs.length cs le_rfl, ?_⟩
  · rw [extract_percentages, dedupeSeen_eq_dedupFirst]
    congr 1
    simp [percentValues]
  · intro p
    rw [extract_percentages, mem_dedupeSeen]
    simp [List.mem_filter, percentValues]
  · intro hempty
    simp [extract_percentages, hempty, dedupeSeen]

/-- C2: the specification says a zero-percentage candidate must never be
chosen while a non-zero candidate exists, but the orchestrator keeps the
first pass's minimum even when it is zero: on OCR passes reading "0%" and
then "7%" it reports 0 although the candidate 7 exists in the second pass.
The preference for non-zero results survives only in an unreachable block of
the legacy method, after a reference to undefined names. -/
theorem C2_zero_chosen_over_nonzero :
    extract_percentage_and_crop ["0%".toList, "7%".toList] = (some 0, none) ∧
    extract_percentages ("7%".toList) = [7] ∧
    (7 : ℚ) ≠ 0 := by
  refine ⟨by decide, by decide, by norm_num⟩

end Coca
